import Mathlib

/-!
# Verification of the skillsmith skill discovery / scoring / composition engine

A shallow embedding of the core of the `skillsmith` repository:

* `src/skillsmith/mcp_server.py` — `_load_skill_meta`, `_iter_skill_dirs`,
  `list_skills`, `get_skill`, `search_skills`, `compose_workflow`;
* `src/skillsmith/commands/__init__.py` — `iter_skill_dirs`,
  `validate_skill_agentskills`;
* `src/skillsmith/commands/rebuild.py` — `rebuild_command` (catalog building).

Modelling conventions:

* Python strings are modelled as `List Char` (`Str`); string helpers
  (`split`, `strip`, `lower`, regex-based tokenization) are re-implemented
  character by character so that every definition is executable and reduces
  inside the kernel.
* The filesystem is a finite map from paths (lists of components, relative
  to a model root) to file contents, plus a list of extra directories that
  exist but contain no files.
* `yaml.safe_load` cannot be embedded; it is an explicit oracle parameter
  `YamlOracle : Str → Except Unit (Option Meta)`.  `.error` models a raised
  exception (malformed YAML, or a non-mapping result that makes later
  subscripting raise), `.ok none` models a block that loads to `None`
  (Python then substitutes `{}` via `or {}`), `.ok (some m)` a mapping.
* Records produced by the query operations carry an extra `srcPath` field
  recording which discovered directory the record was built from; it is
  provenance for stating theorems, not a field of the Python dict.
-/

/-- Python strings, modelled as lists of characters. -/
abbrev Str := List Char

/-- A filesystem path, as a list of components relative to the model root. -/
abbrev FsPath := List Str

/-- ASCII lower-casing of one character (`str.lower` restricted to ASCII,
which is all the code's regexes and the claims exercise). -/
def asciiLower (c : Char) : Char :=
  if 'A' ≤ c ∧ c ≤ 'Z' then Char.ofNat (c.toNat + 32) else c

/-- `s.lower()` on ASCII strings. -/
def strLower (s : Str) : Str := s.map asciiLower

/-- Characters stripped by Python `str.strip()` (ASCII whitespace). -/
def pyIsSpace (c : Char) : Bool :=
  c == ' ' || c == '\t' || c == '\n' || c == '\r' || c == '\x0b' || c == '\x0c'

/-- Python `str.strip()`. -/
def pyStrip (s : Str) : Str :=
  ((s.dropWhile pyIsSpace).reverse.dropWhile pyIsSpace).reverse

/-- Characters kept by the scorer's `re.sub(r"[^a-z0-9 ]", "", …)`. -/
def isTokKeep (c : Char) : Bool :=
  (decide ('a' ≤ c) && decide (c ≤ 'z')) ||
  (decide ('0' ≤ c) && decide (c ≤ '9')) || c == ' '

/-- Split a cleaned character list on spaces, dropping empty words
(Python `str.split()` on a string whose only whitespace is `' '`). -/
def wordsAux : List Char → List Char → List Str
  | acc, [] => if acc.isEmpty then [] else [acc.reverse]
  | acc, c :: cs =>
    if c == ' ' then
      if acc.isEmpty then wordsAux [] cs else acc.reverse :: wordsAux [] cs
    else wordsAux (c :: acc) cs

/-- Tokenization used by `search_skills` and `compose_workflow`:
`re.sub(r"[^a-z0-9 ]", "", s.lower()).split()`. -/
def pyTokens (s : Str) : List Str :=
  wordsAux [] ((s.map asciiLower).filter isTokKeep)

/-- The token set (`set(...)` in Python): tokens with duplicates collapsed. -/
def tokenSet (s : Str) : List Str := (pyTokens s).dedup

/-- Relevance score: `len(set(query_tokens) & set(text_tokens))`. -/
def relevance (query text : Str) : Nat :=
  ((tokenSet query).filter (fun w => decide (w ∈ tokenSet text))).length

/-- Python `needle in hay` (substring containment). -/
def containsSub : Str → Str → Bool
  | hay, needle =>
    needle.isPrefixOf hay ||
      match hay with
      | [] => false
      | _ :: t => containsSub t needle

/-- Characters collapsed by `re.sub(r"[-\s]+", "_", …)` in `get_skill`. -/
def isSepChar (c : Char) : Bool := c == '-' || pyIsSpace c

/-- Replace each maximal run of `-`/whitespace by a single `_`; the `Bool`
records whether we are inside such a run. -/
def collapseSeps : Bool → Str → Str
  | _, [] => []
  | inRun, c :: cs =>
    if isSepChar c then
      if inRun then collapseSeps true cs else '_' :: collapseSeps true cs
    else c :: collapseSeps false cs

/-- `re.sub(r"[-\s]+", "_", name.lower())` from `get_skill`. -/
def pyNormalizeName (s : Str) : Str := collapseSeps false (s.map asciiLower)

/-- Find the first occurrence of (non-empty) `sep`; return the text before
it and the text after it. -/
def splitFirst (sep : Str) : Str → Option (Str × Str)
  | [] => none
  | c :: rest =>
    if sep.isPrefixOf (c :: rest) then some ([], (c :: rest).drop sep.length)
    else
      match splitFirst sep rest with
      | none => none
      | some (a, b) => some (c :: a, b)

/-- Python `content.split(sep, 2)` (at most three parts, remainder raw).
The validator's `content.split("---")` followed by `"---".join(parts[2:])`
computes the same `[parts0, parts1, remainder]` decomposition, and its
`len(parts) >= 3` test holds exactly when this returns three parts. -/
def split3 (sep : Str) (l : Str) : List Str :=
  match splitFirst sep l with
  | none => [l]
  | some (a, r1) =>
    match splitFirst sep r1 with
    | none => [a, r1]
    | some (b, r2) => [a, b, r2]

/-- The frontmatter delimiter `---`. -/
def dash3 : Str := "---".toList

/-- Lexicographic comparison of character lists (Python string `<=`). -/
def charListLe : Str → Str → Bool
  | [], _ => true
  | _ :: _, [] => false
  | a :: as, b :: bs => if a = b then charListLe as bs else decide (a < b)

/-- Lexicographic comparison of paths by components, modelling the ordering
`sorted()` applies to `pathlib` paths. -/
def pathLe : FsPath → FsPath → Bool
  | [], _ => true
  | _ :: _, [] => false
  | a :: as, b :: bs => if a = b then pathLe as bs else charListLe a b

/-- Insert `a` before the first element `b` with `le a b` (stable
insertion). -/
def insertBy (le : α → α → Bool) (a : α) : List α → List α
  | [] => [a]
  | b :: bs => if le a b then a :: b :: bs else b :: insertBy le a bs

/-- Stable insertion sort.  With `le a b := key b ≤ key a` this computes
exactly what Python's stable `list.sort(key=…, reverse=True)` computes, and
with a total order on distinct elements exactly what `sorted()` computes. -/
def insSort (le : α → α → Bool) : List α → List α
  | [] => []
  | a :: as => insertBy le a (insSort le as)

/-- The model filesystem: file paths with contents, plus directories that
exist without containing any file. -/
structure FS where
  files : List (FsPath × Str)
  extraDirs : List FsPath
deriving DecidableEq

/-- Read a file (`Path.read_text`): `none` when no such file exists. -/
def FS.read (fs : FS) (p : FsPath) : Option Str :=
  (fs.files.find? (fun e => decide (e.1 = p))).map (·.2)

/-- `Path.exists()` for a directory: it is listed explicitly or is a proper
prefix of some file path. -/
def FS.dirExists (fs : FS) (d : FsPath) : Bool :=
  fs.extraDirs.any (fun e => decide (e = d)) ||
  fs.files.any (fun e => decide (d ≠ e.1) && d.isPrefixOf e.1)

/-- The file name `SKILL.md`. -/
def skillMdName : Str := "SKILL.md".toList

/-- Whether `p` is a path of a `SKILL.md` file strictly below `base`
(what `base.rglob("SKILL.md")` matches). -/
def isSkillMdUnder (base : FsPath) (p : FsPath) : Bool :=
  base.isPrefixOf p && decide (base.length < p.length) &&
    decide (p.getLast? = some skillMdName)

/-- `iter_skill_dirs` / `_iter_skill_dirs`: yield the parent directory of
every `SKILL.md` below `base`, in sorted (lexicographic path) order;
nothing when `base` does not exist. -/
def iter_skill_dirs (fs : FS) (base : FsPath) : List FsPath :=
  if fs.dirExists base then
    (insSort pathLe ((fs.files.map Prod.fst).filter (isSkillMdUnder base))).map
      List.dropLast
  else []

/-- The last path component (`Path.name`). -/
def pathName (p : FsPath) : Str := p.getLastD []

/-- The `tags` value in a skill's frontmatter, as the code distinguishes it:
absent, a single YAML string, or a sequence of strings. -/
inductive TagsField
  | absent
  | strTag (s : Str)
  | listTag (l : List Str)
deriving DecidableEq

/-- Parsed frontmatter metadata.  `version` holds `str(value)`; an absent
field is `none`.  Only the keys the code reads are modelled. -/
structure Meta where
  name : Option Str
  description : Option Str
  version : Option Str
  tags : TagsField
  globs : Bool
  category : Option Str
deriving DecidableEq

/-- The empty mapping `{}` that `yaml.safe_load(...) or {}` produces for an
empty/None frontmatter block. -/
def emptyMeta : Meta := ⟨none, none, none, .absent, false, none⟩

/-- Model of `yaml.safe_load` on a frontmatter block: `.error` is a raised
exception (malformed YAML, or a non-mapping result whose later subscripting
raises), `.ok none` a block loading to `None`, `.ok (some m)` a mapping. -/
abbrev YamlOracle := Str → Except Unit (Option Meta)

/-- The result of a successful `_load_skill_meta`: the parsed metadata plus
the `_body` (`parts[2].strip()`) and `_folder` (`skill_folder.name`) keys it
adds. -/
structure LoadedSkill where
  meta : Meta
  body : Str
  folder : Str
deriving DecidableEq

/-- `_load_skill_meta`: read `SKILL.md`, split on `---` with maxsplit 2,
parse the YAML block; `none` models the `{}` (falsy) returns that make
callers skip the skill: missing file, fewer than three parts, or an
exception. -/
def load_skill_meta (y : YamlOracle) (fs : FS) (folderPath : FsPath) :
    Option LoadedSkill :=
  match fs.read (folderPath ++ [skillMdName]) with
  | none => none
  | some content =>
    match split3 dash3 content with
    | [_, fm, rest] =>
      match y fm with
      | .error _ => none
      | .ok mo => some ⟨mo.getD emptyMeta, pyStrip rest, pathName folderPath⟩
    | _ => none

/-- `tags = meta.get("tags", []); if isinstance(tags, str): tags = [tags]`. -/
def normTags : TagsField → List Str
  | .absent => []
  | .strTag s => [s]
  | .listTag l => l

/-- The searchable text `" ".join([name, description, " ".join(tags), body])`
scored by `search_skills` and `compose_workflow`. -/
def searchableOf (sk : LoadedSkill) : Str :=
  List.intercalate [' ']
    [sk.meta.name.getD [], sk.meta.description.getD [],
     List.intercalate [' '] (normTags sk.meta.tags), sk.body]

/-- One element of the `list_skills` result.  `srcPath` is provenance (the
discovered directory the record was built from), not a dict key. -/
structure SkillInfo where
  srcPath : FsPath
  name : Str
  folder : Str
  description : Str
  version : Str
  tags : List Str
deriving DecidableEq

/-- The record `list_skills` builds for one successfully loaded skill. -/
def mkSkillInfo (p : FsPath) (sk : LoadedSkill) : SkillInfo :=
  ⟨p, sk.meta.name.getD sk.folder, sk.folder, sk.meta.description.getD [],
    sk.meta.version.getD [], normTags sk.meta.tags⟩

/-- MCP tool `list_skills`. -/
def list_skills (y : YamlOracle) (fs : FS) (dir : FsPath) : List SkillInfo :=
  if fs.dirExists dir then
    (iter_skill_dirs fs dir).filterMap
      (fun p => (load_skill_meta y fs p).map (mkSkillInfo p))
  else []

/-- The four shapes of string `get_skill` returns, as a structured result:
the raw `SKILL.md` text, the "Skills directory not found" error, the
"Ambiguous skill name … one of: …" message with its candidate list, and the
"not found" message. -/
inductive GetSkillResult
  | content (text : Str)
  | dirError
  | ambiguous (name : Str) (candidates : List Str)
  | notFound (name : Str)
deriving DecidableEq

/-- Read a discovered skill directory's `SKILL.md` (always present for
directories produced by `iter_skill_dirs`). -/
def readSkillMd (fs : FS) (p : FsPath) : Str :=
  (fs.read (p ++ [skillMdName])).getD []

/-- The slug-normalized match loop of `get_skill`: the first discovered
folder with `folder.name.lower() == re.sub(r"[-\s]+", "_", name.lower())`. -/
def normMatch (fs : FS) (dir : FsPath) (name : Str) : Option FsPath :=
  (iter_skill_dirs fs dir).find?
    (fun p => decide (strLower (pathName p) = pyNormalizeName name))

/-- The partial-name match list of `get_skill`: discovered folders with
`name.lower() in folder.name.lower()`. -/
def substrMatches (fs : FS) (dir : FsPath) (name : Str) : List FsPath :=
  (iter_skill_dirs fs dir).filter
    (fun p => containsSub (strLower (pathName p)) (strLower name))

/-- MCP tool `get_skill`: exact folder match, then slug-normalized match,
then partial-name match (unique hit returned, several hits reported as
ambiguous with the candidate list). -/
def get_skill (fs : FS) (dir : FsPath) (name : Str) : GetSkillResult :=
  if fs.dirExists dir then
    match fs.read (dir ++ [name, skillMdName]) with
    | some t => .content t
    | none =>
      match normMatch fs dir name with
      | some p => .content (readSkillMd fs p)
      | none =>
        match substrMatches fs dir name with
        | [m] => .content (readSkillMd fs m)
        | [] => .notFound name
        | ms => .ambiguous name (ms.map pathName)
  else .dirError

/-- One element of the `search_skills` result (`srcPath` is provenance). -/
structure SearchHit where
  srcPath : FsPath
  name : Str
  folder : Str
  description : Str
  tags : List Str
  relevance_score : Nat
deriving DecidableEq

/-- Descending order on relevance scores: the stable-sort comparison of
`scored.sort(key=lambda x: x["relevance_score"], reverse=True)`. -/
def hitLe (a b : SearchHit) : Bool := decide (b.relevance_score ≤ a.relevance_score)

/-- MCP tool `search_skills`. -/
def search_skills (y : YamlOracle) (fs : FS) (dir : FsPath) (query : Str)
    (maxResults : Nat) : List SearchHit :=
  if fs.dirExists dir then
    if (tokenSet query).isEmpty then []
    else
      (insSort hitLe
        ((iter_skill_dirs fs dir).filterMap (fun p =>
          match load_skill_meta y fs p with
          | none => none
          | some sk =>
            let sc := relevance query (searchableOf sk)
            if 0 < sc then
              some (⟨p, sk.meta.name.getD sk.folder, sk.folder,
                sk.meta.description.getD [], normTags sk.meta.tags, sc⟩ : SearchHit)
            else none))).take maxResults
  else []

/-- One scored entry of `compose_workflow` (`srcPath` is provenance). -/
structure ScoredSkill where
  srcPath : FsPath
  folder : Str
  name : Str
  desc : Str
  score : Nat
deriving DecidableEq

/-- Descending order on compose scores: the stable-sort comparison of
`scored.sort(key=lambda x: x["score"], reverse=True)`. -/
def scoreLe (a b : ScoredSkill) : Bool := decide (b.score ≤ a.score)

/-- The scored list `compose_workflow` accumulates in discovery order:
one entry per loadable skill with positive relevance to the goal. -/
def compose_scored (y : YamlOracle) (fs : FS) (dir : FsPath) (goal : Str) :
    List ScoredSkill :=
  (iter_skill_dirs fs dir).filterMap (fun p =>
    match load_skill_meta y fs p with
    | none => none
    | some sk =>
      let sc := relevance goal (searchableOf sk)
      if 0 < sc then
        some (⟨p, sk.folder, sk.meta.name.getD sk.folder,
          sk.meta.description.getD [], sc⟩ : ScoredSkill)
      else none)

/-- The three shapes of string `compose_workflow` returns: the
"Error: Skills directory not found. Run: skillsmith init" message, the
"No skills matched the goal: '…'. Try broader keywords." message, and the
rendered workflow (carrying the selected steps in order and the total
number of matched skills, which the rendering interpolates). -/
inductive ComposeResult
  | dirNotFound
  | noMatch (goal : Str)
  | workflow (goal : Str) (steps : List ScoredSkill) (matchedCount : Nat)
deriving DecidableEq

/-- MCP tool `compose_workflow`. -/
def compose_workflow (y : YamlOracle) (fs : FS) (dir : FsPath) (goal : Str)
    (maxSkills : Nat) : ComposeResult :=
  if fs.dirExists dir then
    let scored := compose_scored y fs dir goal
    if scored.isEmpty then .noMatch goal
    else .workflow goal ((insSort scoreLe scored).take maxSkills) scored.length
  else .dirNotFound

/-- One record of the rebuilt catalog: the normalized metadata dict the code
appends.  `folderPath` is provenance (which discovered skill directory the
record came from); the record's *folder identity* in the sense of the data
model is `pathName folderPath`. -/
structure CatalogRecord where
  folderPath : FsPath
  name : Str
  category : Option Str
  description : Option Str
  version : Option Str
  tags : TagsField
  globs : Bool
deriving DecidableEq

/-- `folder.parent.name` for a discovered folder, where the scan root
(`base`) is a directory named `rootName` on the real filesystem. -/
def parentNameOf (rootName : Str) (base : FsPath) (folder : FsPath) : Str :=
  if folder.dropLast = base then rootName else pathName folder.dropLast

/-- Normalization done by `rebuild_command` on one parsed record: default
`name` to the folder name; auto-detect `category` from the parent folder
unless that parent is named `skills` or `.agent`. -/
def rebuildRecord (rootName : Str) (base : FsPath) (folder : FsPath)
    (m : Meta) : CatalogRecord :=
  let cat :=
    match m.category with
    | some c => some c
    | none =>
      let pn := parentNameOf rootName base folder
      if pn ≠ "skills".toList ∧ pn ≠ ".agent".toList then some pn else none
  ⟨folder, m.name.getD (pathName folder), cat, m.description, m.version,
    m.tags, m.globs⟩

/-- The catalog built by `rebuild_command` scanning `base` (a directory
named `rootName`): parse every discovered skill document, skip (with a
logged error) documents whose YAML raises, skip documents with fewer than
three `---` parts, normalize, append. -/
def rebuild_command (y : YamlOracle) (fs : FS) (rootName : Str)
    (base : FsPath) : List CatalogRecord :=
  (iter_skill_dirs fs base).filterMap (fun folder =>
    match fs.read (folder ++ [skillMdName]) with
    | none => none
    | some content =>
      match split3 dash3 content with
      | [_, fm, _] =>
        match y fm with
        | .error _ => none
        | .ok mo => some (rebuildRecord rootName base folder (mo.getD emptyMeta))
      | _ => none)

/-- The frontmatter fields whose absence `validate_skill_agentskills`
reports as an error. -/
inductive FieldId
  | nameField
  | descriptionField
  | versionField
deriving DecidableEq

/-- The messages `validate_skill_agentskills` can emit, one constructor per
message string in the code (`badVersion` carries the interpolated version
text). -/
inductive VMsg
  | missingField (f : FieldId)
  | descTooShort
  | descTooLong
  | badVersion (v : Str)
  | missingTags
  | missingGlobs
  | bodyTooShort
  | failMissingSkillMd
  | failNoFrontmatter
  | failIncompleteFrontmatter
  | parseError
deriving DecidableEq

/-- Which messages are errors (red `FAIL`/error markup) as opposed to
warnings (yellow markup). -/
def VMsg.isError : VMsg → Bool
  | .descTooLong => false
  | .missingTags => false
  | .missingGlobs => false
  | _ => true

/-- ASCII decimal digit. -/
def isAsciiDigit (c : Char) : Bool := decide ('0' ≤ c) && decide (c ≤ '9')

/-- Consume one or more leading digits, returning the remainder. -/
def takeDigits : Str → Option Str
  | [] => none
  | c :: cs => if isAsciiDigit c then some (cs.dropWhile isAsciiDigit) else none

/-- The regex `^\d+\.\d+\.\d+$` without the trailing-newline allowance. -/
def semverCore (s : Str) : Bool :=
  match takeDigits s with
  | none => false
  | some r1 =>
    match r1 with
    | '.' :: r1' =>
      match takeDigits r1' with
      | none => false
      | some r2 =>
        match r2 with
        | '.' :: r2' =>
          match takeDigits r2' with
          | none => false
          | some r3 => r3.isEmpty
        | _ => false
    | _ => false

/-- `re.match(r"^\d+\.\d+\.\d+$", ver)`: Python's `$` also matches just
before one trailing newline. -/
def semverMatch (s : Str) : Bool :=
  semverCore s ||
    (match s.getLast? with
     | some c => c == '\n' && semverCore s.dropLast
     | none => false)

/-- The accumulation of checks `validate_skill_agentskills` performs on a
parsed metadata mapping and the raw body remainder (everything after the
second `---`), mirroring the Python appends: two accumulators `errors` and
`warnings`, returned as `(len(errors) == 0, errors + warnings)`. -/
def checkMeta (m : Meta) (bodyRaw : Str) : Bool × List VMsg :=
  let e1 := if m.name.isNone then [VMsg.missingField .nameField] else []
  let e2 := e1 ++ (if m.description.isNone then [VMsg.missingField .descriptionField] else [])
  let e3 := e2 ++ (if m.version.isNone then [VMsg.missingField .versionField] else [])
  let desc := m.description.getD []
  let ew :=
    if desc ≠ [] ∧ desc.length < 10 then (e3 ++ [VMsg.descTooShort], ([] : List VMsg))
    else if desc ≠ [] ∧ 200 < desc.length then (e3, [VMsg.descTooLong])
    else (e3, [])
  let ver := m.version.getD []
  let e5 := ew.1 ++ (if ver ≠ [] ∧ semverMatch ver = false then [VMsg.badVersion ver] else [])
  let w2 := ew.2 ++ (if m.tags = TagsField.absent then [VMsg.missingTags] else [])
  let w3 := w2 ++ (if m.globs = false then [VMsg.missingGlobs] else [])
  let body := pyStrip bodyRaw
  let e6 := e5 ++ (if body.length < 50 then [VMsg.bodyTooShort] else [])
  (e6.isEmpty, e6 ++ w3)

/-- `validate_skill_agentskills` applied to a document's raw text: the
frontmatter-shape checks, the YAML parse (exceptions converted to a single
`parseError` by the `except` clause), then `checkMeta`. -/
def validateContent (y : YamlOracle) (content : Str) : Bool × List VMsg :=
  if !(dash3.isPrefixOf content) then (false, [.failNoFrontmatter])
  else
    match split3 dash3 content with
    | [_, fm, rest] =>
      match y fm with
      | .error _ => (false, [.parseError])
      | .ok mo => checkMeta (mo.getD emptyMeta) rest
    | _ => (false, [.failIncompleteFrontmatter])

/-- `validate_skill_agentskills` on a skill directory: missing `SKILL.md`
is its own failure, otherwise validate the file's text. -/
def validate_skill_agentskills (y : YamlOracle) (fs : FS) (skillPath : FsPath) :
    Bool × List VMsg :=
  match fs.read (skillPath ++ [skillMdName]) with
  | none => (false, [.failMissingSkillMd])
  | some content => validateContent y content

/-- The body of the validator's `try` block with the exception left
explicit: `.error` where the Python code would raise (the YAML parse). -/
def validateBodyExc (y : YamlOracle) (content : Str) :
    Except Unit (Bool × List VMsg) :=
  if !(dash3.isPrefixOf content) then .ok (false, [.failNoFrontmatter])
  else
    match split3 dash3 content with
    | [_, fm, rest] =>
      match y fm with
      | .error e => .error e
      | .ok mo => .ok (checkMeta (mo.getD emptyMeta) rest)
    | _ => .ok (false, [.failIncompleteFrontmatter])

/-- The errors of the full-standard validation in the specified check
order: missing `name`/`description`/`version`, description too short,
version not semver, body too short. -/
def specErrors (m : Meta) (bodyRaw : Str) : List VMsg :=
  (if m.name.isNone then [VMsg.missingField .nameField] else []) ++
  (if m.description.isNone then [VMsg.missingField .descriptionField] else []) ++
  (if m.version.isNone then [VMsg.missingField .versionField] else []) ++
  (if m.description.getD [] ≠ [] ∧ (m.description.getD []).length < 10 then
    [VMsg.descTooShort] else []) ++
  (if m.version.getD [] ≠ [] ∧ semverMatch (m.version.getD []) = false then
    [VMsg.badVersion (m.version.getD [])] else []) ++
  (if (pyStrip bodyRaw).length < 50 then [VMsg.bodyTooShort] else [])

/-- The warnings of the full-standard validation in the specified check
order: description over 200 characters, missing `tags`, missing `globs`. -/
def specWarnings (m : Meta) : List VMsg :=
  (if m.description.getD [] ≠ [] ∧ 200 < (m.description.getD []).length then
    [VMsg.descTooLong] else []) ++
  (if m.tags = TagsField.absent then [VMsg.missingTags] else []) ++
  (if m.globs = false then [VMsg.missingGlobs] else [])

theorem mem_insertBy (le : α → α → Bool) (a x : α) (l : List α) :
    x ∈ insertBy le a l ↔ x = a ∨ x ∈ l := by
  induction l with
  | nil => simp [insertBy]
  | cons b bs ih =>
    simp only [insertBy]
    split
    · simp
    · simp only [List.mem_cons, ih]
      tauto

theorem perm_insertBy (le : α → α → Bool) (a : α) (l : List α) :
    List.Perm (insertBy le a l) (a :: l) := by
  induction l with
  | nil => rfl
  | cons b bs ih =>
    simp only [insertBy]
    split
    · rfl
    · exact (ih.cons b).trans (List.Perm.swap a b bs)

theorem perm_insSort (le : α → α → Bool) (l : List α) :
    List.Perm (insSort le l) l := by
  induction l with
  | nil => rfl
  | cons a as ih => exact (perm_insertBy le a (insSort le as)).trans (ih.cons a)

theorem mem_insSort (le : α → α → Bool) (x : α) (l : List α) :
    x ∈ insSort le l ↔ x ∈ l :=
  (perm_insSort le l).mem_iff

theorem pairwise_insertBy_score (a : ScoredSkill) (l : List ScoredSkill)
    (h : l.Pairwise (fun x y => y.score ≤ x.score)) :
    (insertBy scoreLe a l).Pairwise (fun x y => y.score ≤ x.score) := by
  induction l with
  | nil => simp [insertBy]
  | cons b bs ih =>
    rcases List.pairwise_cons.mp h with ⟨hb, hbs⟩
    simp only [insertBy]
    by_cases hle : scoreLe a b = true
    · have hba : b.score ≤ a.score := by
        simpa [scoreLe, decide_eq_true_eq] using hle
      rw [if_pos hle]
      refine List.pairwise_cons.mpr ⟨?_, h⟩
      intro x hx
      rcases List.mem_cons.mp hx with rfl | hx
      · exact hba
      · exact le_trans (hb x hx) hba
    · have hab : a.score ≤ b.score := by
        simp only [scoreLe, decide_eq_true_eq] at hle
        omega
      rw [if_neg hle]
      refine List.pairwise_cons.mpr ⟨?_, ih hbs⟩
      intro x hx
      rcases (mem_insertBy scoreLe a x _).mp hx with rfl | hx
      · exact hab
      · exact hb x hx

theorem sorted_insSort_score (l : List ScoredSkill) :
    (insSort scoreLe l).Pairwise (fun x y => y.score ≤ x.score) := by
  induction l with
  | nil => exact List.Pairwise.nil
  | cons a as ih => exact pairwise_insertBy_score a (insSort scoreLe as) ih

theorem filter_insertBy_score (a : ScoredSkill) (l : List ScoredSkill) (s : Nat) :
    (insertBy scoreLe a l).filter (fun x => decide (x.score = s)) =
      ((a :: l).filter (fun x => decide (x.score = s))) := by
  induction l with
  | nil => rfl
  | cons b bs ih =>
    simp only [insertBy]
    by_cases hle : scoreLe a b = true
    · rw [if_pos hle]
    · have hab : a.score < b.score := by
        simp only [scoreLe, decide_eq_true_eq] at hle
        omega
      rw [if_neg hle]
      by_cases hb : b.score = s <;> by_cases ha : a.score = s
      · omega
      · simp [List.filter_cons, hb, ha, ih]
      · simp [List.filter_cons, hb, ha, ih]
      · simp [List.filter_cons, hb, ha, ih]

theorem filter_insSort_score (l : List ScoredSkill) (s : Nat) :
    (insSort scoreLe l).filter (fun x => decide (x.score = s)) =
      l.filter (fun x => decide (x.score = s)) := by
  induction l with
  | nil => rfl
  | cons a as ih =>
    calc (insertBy scoreLe a (insSort scoreLe as)).filter (fun x => decide (x.score = s))
        = (a :: insSort scoreLe as).filter (fun x => decide (x.score = s)) :=
          filter_insertBy_score a (insSort scoreLe as) s
      _ = (a :: as).filter (fun x => decide (x.score = s)) := by
          simp only [List.filter_cons, ih]

theorem map_filterMap_sublist (f : α → Option β) (g : β → α)
    (hfg : ∀ a b, f a = some b → g b = a) (l : List α) :
    ((l.filterMap f).map g).Sublist l := by
  induction l with
  | nil => simp
  | cons a l ih =>
    cases hfa : f a with
    | none =>
      simpa only [List.filterMap_cons, hfa] using ih.cons a
    | some b =>
      simpa only [List.filterMap_cons, hfa, List.map_cons, hfg a b hfa] using
        ih.cons₂ a

/-- Metadata of the example skill `software_lifecycle` whose description
contains "saas mvp build". -/
def metaSL : Meta :=
  ⟨some "software_lifecycle".toList, some "saas mvp build".toList,
    some "1.0.0".toList, .absent, false, none⟩

/-- Metadata of the example skill `debugging` whose description contains
"build". -/
def metaDbg : Meta :=
  ⟨some "debugging".toList, some "build".toList, some "1.0.0".toList,
    .absent, false, none⟩

/-- YAML oracle for the two example frontmatter blocks. -/
def oracleC1 : YamlOracle := fun fm =>
  if fm = ['a'] then .ok (some metaSL)
  else if fm = ['b'] then .ok (some metaDbg)
  else .error ()

/-- Skills directory with the two example skills. -/
def fsC1 : FS :=
  ⟨[(["software_lifecycle".toList, skillMdName], "---a---.".toList),
    (["debugging".toList, skillMdName], "---b---.".toList)], []⟩

/-- The example goal. -/
def goalC1 : Str := "build a saas mvp".toList

/-- Claim C1: `compose_workflow` scores each discovered skill against the
goal by token-set overlap, sorts the scored list descending by score with a
stable sort (ties keep discovery order: the sorted list is a permutation of
the discovery-order scored list, is sorted by descending score, and within
each score class preserves the original order), and selects the first
`max_skills`; on the example catalog, goal "build a saas mvp" scores
`software_lifecycle` 3 and `debugging` 1, and `max_skills = 1` selects only
`software_lifecycle`. -/
theorem claim_C1 :
    (∀ l : List ScoredSkill,
        (insSort scoreLe l).Pairwise (fun x y => y.score ≤ x.score)) ∧
    (∀ (l : List ScoredSkill) (s : Nat),
        (insSort scoreLe l).filter (fun x => decide (x.score = s)) =
          l.filter (fun x => decide (x.score = s))) ∧
    (∀ l : List ScoredSkill, List.Perm (insSort scoreLe l) l) ∧
    (∀ (y : YamlOracle) (fs : FS) (dir : FsPath) (goal : Str) (k : Nat),
        fs.dirExists dir = true → compose_scored y fs dir goal ≠ [] →
        compose_workflow y fs dir goal k =
          .workflow goal ((insSort scoreLe (compose_scored y fs dir goal)).take k)
            (compose_scored y fs dir goal).length) ∧
    compose_scored oracleC1 fsC1 [] goalC1 =
      [⟨["debugging".toList], "debugging".toList, "debugging".toList,
          "build".toList, 1⟩,
        ⟨["software_lifecycle".toList], "software_lifecycle".toList,
          "software_lifecycle".toList, "saas mvp build".toList, 3⟩] ∧
    compose_workflow oracleC1 fsC1 [] goalC1 1 =
      .workflow goalC1
        [⟨["software_lifecycle".toList], "software_lifecycle".toList,
          "software_lifecycle".toList, "saas mvp build".toList, 3⟩] 2 := by
  refine ⟨sorted_insSort_score, filter_insSort_score, perm_insSort scoreLe,
    ?_, by decide, by decide⟩
  intro y fs dir goal k h1 h2
  unfold compose_workflow
  rw [if_pos h1]
  simp only []
  rw [if_neg (fun hc => h2 (List.isEmpty_iff.mp hc))]

/-- Witness for C1: the general selection equation applied to the example
catalog, every hypothesis discharged by evaluation. -/
theorem claim_C1_witness :
    compose_workflow oracleC1 fsC1 [] goalC1 1 =
      .workflow goalC1
        ((insSort scoreLe (compose_scored oracleC1 fsC1 [] goalC1)).take 1)
        (compose_scored oracleC1 fsC1 [] goalC1).length :=
  claim_C1.2.2.2.1 oracleC1 fsC1 [] goalC1 1 (by decide) (by decide)

theorem compose_scored_srcPath_ne (y : YamlOracle) (fs : FS) (dir : FsPath)
    (q : Str) (folder : FsPath) (sk : LoadedSkill)
    (hload : load_skill_meta y fs folder = some sk)
    (hscore : relevance q (searchableOf sk) = 0) :
    ∀ st ∈ compose_scored y fs dir q, st.srcPath ≠ folder := by
  intro st hst heq
  rcases List.mem_filterMap.mp hst with ⟨p, _, hfp⟩
  cases hl : load_skill_meta y fs p with
  | none => rw [hl] at hfp; simp at hfp
  | some sk' =>
    rw [hl] at hfp
    simp only at hfp
    by_cases hpos : 0 < relevance q (searchableOf sk')
    · rw [if_pos hpos] at hfp
      have hstp : st.srcPath = p := by
        cases Option.some.inj hfp
        rfl
      rw [hstp] at heq
      subst heq
      rw [hload] at hl
      cases Option.some.inj hl
      omega
    · rw [if_neg hpos] at hfp
      simp at hfp

theorem search_scored_srcPath_ne (y : YamlOracle) (fs : FS) (dir : FsPath)
    (q : Str) (folder : FsPath) (sk : LoadedSkill)
    (hload : load_skill_meta y fs folder = some sk)
    (hscore : relevance q (searchableOf sk) = 0) :
    ∀ hit ∈ (iter_skill_dirs fs dir).filterMap (fun p =>
        match load_skill_meta y fs p with
        | none => none
        | some sk' =>
          let sc := relevance q (searchableOf sk')
          if 0 < sc then
            some (⟨p, sk'.meta.name.getD sk'.folder, sk'.folder,
              sk'.meta.description.getD [], normTags sk'.meta.tags, sc⟩ : SearchHit)
          else none),
      hit.srcPath ≠ folder := by
  intro hit hmem heq
  rcases List.mem_filterMap.mp hmem with ⟨p, _, hfp⟩
  cases hl : load_skill_meta y fs p with
  | none => rw [hl] at hfp; simp at hfp
  | some sk' =>
    rw [hl] at hfp
    simp only at hfp
    by_cases hpos : 0 < relevance q (searchableOf sk')
    · rw [if_pos hpos] at hfp
      have hstp : hit.srcPath = p := by
        cases Option.some.inj hfp
        rfl
      rw [hstp] at heq
      subst heq
      rw [hload] at hl
      cases Option.some.inj hl
      omega
    · rw [if_neg hpos] at hfp
      simp at hfp

/-- Claim C2: a skill whose searchable text (name, description, tags, body)
has empty token-set intersection with the query — relevance score 0 —
appears in neither the `search_skills` results nor the steps selected by
`compose_workflow` for that same string. -/
theorem claim_C2 (y : YamlOracle) (fs : FS) (dir : FsPath) (q : Str)
    (maxResults maxSkills : Nat) (folder : FsPath) (sk : LoadedSkill)
    (hload : load_skill_meta y fs folder = some sk)
    (hscore : relevance q (searchableOf sk) = 0) :
    (∀ hit ∈ search_skills y fs dir q maxResults, hit.srcPath ≠ folder) ∧
    (∀ goal steps n, compose_workflow y fs dir q maxSkills = .workflow goal steps n →
      ∀ st ∈ steps, st.srcPath ≠ folder) := by
  constructor
  · intro hit hmem
    unfold search_skills at hmem
    by_cases hd : fs.dirExists dir = true
    · rw [if_pos hd] at hmem
      by_cases hq : (tokenSet q).isEmpty = true
      · rw [if_pos hq] at hmem
        simp at hmem
      · rw [if_neg hq] at hmem
        have hmem2 := List.take_subset _ _ hmem
        rw [mem_insSort] at hmem2
        exact search_scored_srcPath_ne y fs dir q folder sk hload hscore hit hmem2
    · rw [if_neg hd] at hmem
      simp at hmem
  · intro goal steps n hcw st hst
    unfold compose_workflow at hcw
    by_cases hd : fs.dirExists dir = true
    · rw [if_pos hd] at hcw
      simp only [] at hcw
      by_cases he : (compose_scored y fs dir q).isEmpty = true
      · rw [if_pos he] at hcw
        exact ComposeResult.noConfusion hcw
      · rw [if_neg he] at hcw
        have hsteps : steps = (insSort scoreLe (compose_scored y fs dir q)).take maxSkills := by
          cases hcw
          rfl
        rw [hsteps] at hst
        have hst2 := List.take_subset _ _ hst
        rw [mem_insSort] at hst2
        exact compose_scored_srcPath_ne y fs dir q folder sk hload hscore st hst2
    · rw [if_neg hd] at hcw
      exact ComposeResult.noConfusion hcw

/-- Metadata of a witness skill unrelated to the witness query. -/
def metaW : Meta :=
  ⟨some "alpha".toList, some "beta gamma".toList, some "1.0.0".toList,
    .absent, false, none⟩

/-- Oracle for the witness skill. -/
def oracleW : YamlOracle := fun fm =>
  if fm = ['w'] then .ok (some metaW) else .error ()

/-- One-skill directory for the C2 witness. -/
def fsW : FS := ⟨[(["alpha".toList, skillMdName], "---w---.".toList)], []⟩

/-- The loaded form of the witness skill. -/
def skW : LoadedSkill := ⟨metaW, ['.'], "alpha".toList⟩

/-- Witness for C2 at a concrete catalog and query with zero overlap. -/
theorem claim_C2_witness :
    (∀ hit ∈ search_skills oracleW fsW [] "zzz".toList 10,
      hit.srcPath ≠ ["alpha".toList]) ∧
    (∀ goal steps n,
      compose_workflow oracleW fsW [] "zzz".toList 7 = .workflow goal steps n →
      ∀ st ∈ steps, st.srcPath ≠ ["alpha".toList]) :=
  claim_C2 oracleW fsW [] "zzz".toList 10 7 ["alpha".toList] skW (by decide)
    (by decide)

/-- A tree where `foo` is a matched skill directory and `foo/sub`, inside
`foo`'s own subtree, also directly contains a `SKILL.md`. -/
def fsC4 : FS :=
  ⟨[(["foo".toList, skillMdName], ['x']),
    (["foo".toList, "sub".toList, skillMdName], ['x'])], []⟩

/-- Counterexample to C4: discovery (built on `rglob("SKILL.md")`) *does*
recurse into an already-matched skill directory's subtree — `foo` is
matched, and `foo/sub`, inside `foo`, is discovered as well, contradicting
the claim that discovery does not descend into matched directories. -/
theorem claim_C4_counterexample :
    iter_skill_dirs fsC4 [] =
      [["foo".toList], ["foo".toList, "sub".toList]] ∧
    ["foo".toList] ∈ iter_skill_dirs fsC4 [] ∧
    ["foo".toList, "sub".toList] ∈ iter_skill_dirs fsC4 [] := by
  decide

/-- Claim C4 as amended: discovery yields exactly the directories with a
`SKILL.md` directly inside them, at any depth below an existing base —
including directories nested inside another matched skill directory's
subtree. -/
theorem claim_C4_amended (fs : FS) (base p : FsPath) :
    p ∈ iter_skill_dirs fs base ↔
      fs.dirExists base = true ∧
      (p ++ [skillMdName]) ∈ fs.files.map Prod.fst ∧ base <+: p := by
  unfold iter_skill_dirs
  by_cases hd : fs.dirExists base = true
  · rw [if_pos hd]
    simp only [hd, true_and]
    constructor
    · intro hp
      rcases List.mem_map.mp hp with ⟨q, hq, hdrop⟩
      rw [mem_insSort] at hq
      rcases List.mem_filter.mp hq with ⟨hqmem, hqprop⟩
      unfold isSkillMdUnder at hqprop
      simp only [Bool.and_eq_true, decide_eq_true_eq,
        List.isPrefixOf_iff_prefix] at hqprop
      rcases hqprop with ⟨⟨hpre, hlen⟩, hlast⟩
      rcases List.getLast?_eq_some_iff.mp hlast with ⟨t, rfl⟩
      rw [List.dropLast_concat] at hdrop
      subst hdrop
      refine ⟨hqmem, ?_⟩
      rcases List.prefix_concat_iff.mp hpre with heq | hpre2
      · subst heq
        simp at hlen
      · exact hpre2
    · rintro ⟨hmem, hpre⟩
      refine List.mem_map.mpr ⟨p ++ [skillMdName], ?_, List.dropLast_concat⟩
      rw [mem_insSort]
      refine List.mem_filter.mpr ⟨hmem, ?_⟩
      unfold isSkillMdUnder
      simp only [Bool.and_eq_true, decide_eq_true_eq,
        List.isPrefixOf_iff_prefix]
      refine ⟨⟨hpre.trans (List.prefix_append p [skillMdName]), ?_⟩, ?_⟩
      · have := hpre.length_le
        simp only [List.length_append, List.length_cons, List.length_nil]
        omega
      · exact List.getLast?_eq_some_iff.mpr ⟨p, rfl⟩
  · rw [if_neg hd]
    simp only [List.not_mem_nil, false_iff, not_and]
    intro h
    exact absurd h hd

theorem iter_skill_dirs_nodup (fs : FS) (base : FsPath)
    (h : (fs.files.map Prod.fst).Nodup) : (iter_skill_dirs fs base).Nodup := by
  unfold iter_skill_dirs
  by_cases hd : fs.dirExists base = true
  · rw [if_pos hd]
    have hfil := h.filter (isSkillMdUnder base)
    have hsort : (insSort pathLe
        ((fs.files.map Prod.fst).filter (isSkillMdUnder base))).Nodup :=
      ((perm_insSort pathLe _).nodup_iff).mpr hfil
    refine List.Nodup.map_on ?_ hsort
    intro x hx y hy hxy
    rw [mem_insSort] at hx hy
    rcases List.mem_filter.mp hx with ⟨-, hxp⟩
    rcases List.mem_filter.mp hy with ⟨-, hyp⟩
    unfold isSkillMdUnder at hxp hyp
    simp only [Bool.and_eq_true, decide_eq_true_eq] at hxp hyp
    rcases List.getLast?_eq_some_iff.mp hxp.2 with ⟨t, rfl⟩
    rcases List.getLast?_eq_some_iff.mp hyp.2 with ⟨t', rfl⟩
    rw [List.dropLast_concat, List.dropLast_concat] at hxy
    rw [hxy]
  · rw [if_neg hd]
    exact List.Pairwise.nil

/-- Oracle for the C3 fixture: frontmatter `m` parses to the empty mapping. -/
def oracleC3 : YamlOracle := fun fm =>
  if fm = ['m'] then .ok (some emptyMeta) else .error ()

/-- Two skill directories at different paths but with the same directory
name `foo`. -/
def fsC3 : FS :=
  ⟨[(["a".toList, "foo".toList, skillMdName], "---m---.".toList),
    (["b".toList, "foo".toList, skillMdName], "---m---.".toList)], []⟩

/-- Counterexample to C3: one rebuild of the catalog over `a/foo` and
`b/foo` produces two records whose folder identity (skill-directory name)
is `foo` in both — folder identities within one catalog are not pairwise
distinct, and no deduplication is performed. -/
theorem claim_C3_counterexample :
    (rebuild_command oracleC3 fsC3 "skills".toList []).map
        (fun r => pathName r.folderPath) =
      ["foo".toList, "foo".toList] ∧
    ¬ ((rebuild_command oracleC3 fsC3 "skills".toList []).map
        (fun r => pathName r.folderPath)).Nodup := by
  decide

/-- Claim C3 as amended: within one catalog the records' *source directory
paths* are pairwise distinct (one record per discovered directory, given
distinct file paths on disk), but their folder identities — the directory
base names — may coincide. -/
theorem claim_C3_amended (y : YamlOracle) (fs : FS) (rootName : Str)
    (base : FsPath) (h : (fs.files.map Prod.fst).Nodup) :
    ((rebuild_command y fs rootName base).map CatalogRecord.folderPath).Nodup := by
  have hiter := iter_skill_dirs_nodup fs base h
  unfold rebuild_command
  refine List.Nodup.sublist
    (map_filterMap_sublist _ CatalogRecord.folderPath ?_ _) hiter
  intro a b hab
  cases hread : fs.read (a ++ [skillMdName]) with
  | none => rw [hread] at hab; simp at hab
  | some content =>
    rw [hread] at hab
    dsimp only at hab
    rcases hsplit : split3 dash3 content with _ | ⟨x1, _ | ⟨x2, _ | ⟨x3, _ | ⟨x4, rest⟩⟩⟩⟩ <;>
      rw [hsplit] at hab <;> try simp at hab
    cases hy : y x2 with
    | error e => rw [hy] at hab; simp at hab
    | ok mo =>
      rw [hy] at hab
      cases Option.some.inj hab
      rfl

/-- Witness for the amended C3 at the concrete two-`foo` tree: the source
paths of the two records are distinct even though the base names collide. -/
theorem claim_C3_amended_witness :
    ((rebuild_command oracleC3 fsC3 "skills".toList []).map
      CatalogRecord.folderPath).Nodup :=
  claim_C3_amended oracleC3 fsC3 "skills".toList [] (by decide)

/-- One-skill directory for the C5 example: folder
`fastapi_best_practices`, no folder literally named
`fastapi-best-practices`. -/
def fsC5 : FS :=
  ⟨[(["fastapi_best_practices".toList, skillMdName], "---f---.".toList)], []⟩

/-- Claim C5: `get_skill` resolves an exact folder match first; otherwise
the first case/separator-normalized match (lowercase, `-`/whitespace runs
mapped to `_`); otherwise a unique substring match; several substring
matches yield the ambiguity message carrying the full candidate list; and
`get_skill("fastapi-best-practices")` resolves to folder
`fastapi_best_practices` when no exact match exists. -/
theorem claim_C5 :
    (∀ (fs : FS) (dir : FsPath) (name t : Str),
        fs.dirExists dir = true →
        fs.read (dir ++ [name, skillMdName]) = some t →
        get_skill fs dir name = .content t) ∧
    (∀ (fs : FS) (dir : FsPath) (name : Str) (p : FsPath),
        fs.dirExists dir = true →
        fs.read (dir ++ [name, skillMdName]) = none →
        normMatch fs dir name = some p →
        get_skill fs dir name = .content (readSkillMd fs p)) ∧
    (∀ (fs : FS) (dir : FsPath) (name : Str) (m : FsPath),
        fs.dirExists dir = true →
        fs.read (dir ++ [name, skillMdName]) = none →
        normMatch fs dir name = none →
        substrMatches fs dir name = [m] →
        get_skill fs dir name = .content (readSkillMd fs m)) ∧
    (∀ (fs : FS) (dir : FsPath) (name : Str),
        fs.dirExists dir = true →
        fs.read (dir ++ [name, skillMdName]) = none →
        normMatch fs dir name = none →
        2 ≤ (substrMatches fs dir name).length →
        get_skill fs dir name =
          .ambiguous name ((substrMatches fs dir name).map pathName)) ∧
    get_skill fsC5 [] "fastapi-best-practices".toList =
      .content "---f---.".toList := by
  refine ⟨?_, ?_, ?_, ?_, by decide⟩
  · intro fs dir name t h1 hread
    unfold get_skill
    rw [if_pos h1, hread]
  · intro fs dir name p h1 hread hnorm
    unfold get_skill
    rw [if_pos h1, hread]
    dsimp only
    rw [hnorm]
  · intro fs dir name m h1 hread hnorm hsub
    unfold get_skill
    rw [if_pos h1, hread]
    dsimp only
    rw [hnorm]
    dsimp only
    rw [hsub]
  · intro fs dir name h1 hread hnorm hlen
    unfold get_skill
    rw [if_pos h1, hread]
    dsimp only
    rw [hnorm]
    dsimp only
    rcases hsub : substrMatches fs dir name with _ | ⟨a, _ | ⟨b, rest⟩⟩
    · rw [hsub] at hlen
      simp at hlen
    · rw [hsub] at hlen
      simp at hlen
    · rfl

/-- Witness for C5: the normalized-match branch applied to the fastapi
example, every hypothesis discharged by evaluation. -/
theorem claim_C5_witness :
    get_skill fsC5 [] "fastapi-best-practices".toList =
      .content (readSkillMd fsC5 ["fastapi_best_practices".toList]) :=
  claim_C5.2.1 fsC5 [] "fastapi-best-practices".toList
    ["fastapi_best_practices".toList] (by decide) (by decide) (by decide)

theorem checkMeta_eq_spec (m : Meta) (bodyRaw : Str) :
    checkMeta m bodyRaw =
      ((specErrors m bodyRaw).isEmpty, specErrors m bodyRaw ++ specWarnings m) := by
  simp only [checkMeta, specErrors, specWarnings]
  by_cases h1 : m.description.getD [] ≠ [] ∧ (m.description.getD []).length < 10
  · rw [if_pos h1, if_pos h1]
    have h2 : ¬(m.description.getD [] ≠ [] ∧ 200 < (m.description.getD []).length) := by
      rcases h1 with ⟨-, hlt⟩
      rintro ⟨-, hgt⟩
      omega
    rw [if_neg h2]
  · rw [if_neg h1, if_neg h1]
    by_cases h2 : m.description.getD [] ≠ [] ∧ 200 < (m.description.getD []).length
    · rw [if_pos h2, if_pos h2]
      simp [List.append_assoc]
    · rw [if_neg h2, if_neg h2]
      simp [List.append_assoc]

/-- Claim C6: for every parsed skill document, full-standard validation is
valid exactly when the accumulated error list is empty (warnings never
affect validity), and the returned messages are all errors first, then all
warnings, each group in the specified check order. -/
theorem claim_C6 (m : Meta) (bodyRaw : Str) :
    checkMeta m bodyRaw =
      ((specErrors m bodyRaw).isEmpty, specErrors m bodyRaw ++ specWarnings m) ∧
    (specErrors m bodyRaw).all VMsg.isError = true ∧
    (specWarnings m).all (fun x => ! x.isError) = true := by
  refine ⟨checkMeta_eq_spec m bodyRaw, ?_, ?_⟩
  · unfold specErrors
    split_ifs <;> simp [VMsg.isError]
  · unfold specWarnings
    split_ifs <;> simp [VMsg.isError]

/-- Metadata with a *present but empty* description and no other problems. -/
def mC7 : Meta :=
  ⟨some ['x'], some [], some "1.0.0".toList, .listTag [], true, none⟩

/-- A 50-character body, long enough to pass the body-length check. -/
def bodyC7 : Str := List.replicate 50 'x'

set_option maxRecDepth 4000 in
set_option maxHeartbeats 1000000 in
/-- Counterexample to C7: the description field is present with value `""`,
whose length 0 is below 10, yet full-standard validation emits *no*
"too short" error — indeed no message at all and a valid verdict — because
the code guards both description checks with Python truthiness
(`if desc and len(desc) < 10`), which an empty string fails. -/
theorem claim_C7_counterexample :
    mC7.description = some [] ∧ ([] : Str).length < 10 ∧
    checkMeta mC7 bodyC7 = (true, []) := by
  refine ⟨rfl, by decide, ?_⟩
  rfl

/-- Claim C7 as amended: for a present description `d`, the "too short"
error fires exactly when `d` is non-empty and shorter than 10 characters,
the trim warning exactly when `d` is non-empty and longer than 200
characters, and the two checks never fire together. -/
theorem mem_ite_singleton (c : Prop) [Decidable c] (x y : α) :
    (x ∈ if c then [y] else []) ↔ c ∧ x = y := by
  split
  · simp_all
  · simp_all

theorem claim_C7_amended (m : Meta) (bodyRaw : Str) (d : Str)
    (hd : m.description = some d) :
    (VMsg.descTooShort ∈ (checkMeta m bodyRaw).2 ↔ d ≠ [] ∧ d.length < 10) ∧
    (VMsg.descTooLong ∈ (checkMeta m bodyRaw).2 ↔ d ≠ [] ∧ 200 < d.length) ∧
    ¬ (VMsg.descTooShort ∈ (checkMeta m bodyRaw).2 ∧
       VMsg.descTooLong ∈ (checkMeta m bodyRaw).2) := by
  rw [checkMeta_eq_spec m bodyRaw]
  have hshort : VMsg.descTooShort ∈ specErrors m bodyRaw ++ specWarnings m ↔
      d ≠ [] ∧ d.length < 10 := by
    simp only [specErrors, specWarnings, hd, Option.getD_some, List.mem_append,
      mem_ite_singleton]
    simp
  have hlong : VMsg.descTooLong ∈ specErrors m bodyRaw ++ specWarnings m ↔
      d ≠ [] ∧ 200 < d.length := by
    simp only [specErrors, specWarnings, hd, Option.getD_some, List.mem_append,
      mem_ite_singleton]
    simp
  refine ⟨hshort, hlong, ?_⟩
  rintro ⟨h1, h2⟩
  have c1 := hshort.mp h1
  have c2 := hlong.mp h2
  omega

/-- Metadata with a present 5-character description for the C7 witness. -/
def mC7w : Meta :=
  ⟨some ['x'], some "short".toList, some "1.0.0".toList, .absent, false, none⟩

/-- Witness for the amended C7: a 5-character description makes the
"too short" error fire, and the two description checks never co-occur. -/
theorem claim_C7_amended_witness :
    VMsg.descTooShort ∈ (checkMeta mC7w ['.']).2 ∧
    ¬ (VMsg.descTooShort ∈ (checkMeta mC7w ['.']).2 ∧
       VMsg.descTooLong ∈ (checkMeta mC7w ['.']).2) :=
  ⟨(claim_C7_amended mC7w ['.'] "short".toList rfl).1.mpr (by decide),
   (claim_C7_amended mC7w ['.'] "short".toList rfl).2.2⟩

/-- Claim C8: for every document text — including the empty string, text
with no frontmatter delimiter, and text whose YAML block is malformed (an
oracle that raises) — full-standard validation returns a plain
(validity, messages) pair: every raised exception inside the `try` block is
caught and converted to the single `parseError` result, never propagated. -/
theorem claim_C8 (y : YamlOracle) (content : Str) :
    ((∃ r, validateBodyExc y content = .ok r ∧ validateContent y content = r) ∨
      (validateBodyExc y content = .error () ∧
        validateContent y content = (false, [.parseError]))) ∧
    validateContent y [] = (false, [.failNoFrontmatter]) ∧
    validateContent y "hello".toList = (false, [.failNoFrontmatter]) ∧
    validateContent (fun _ => .error ()) "---a---b".toList =
      (false, [.parseError]) := by
  refine ⟨?_, rfl, rfl, rfl⟩
  by_cases hpre : dash3.isPrefixOf content = true
  · rcases hsplit : split3 dash3 content with _ | ⟨x1, _ | ⟨x2, _ | ⟨x3, _ | ⟨x4, rest⟩⟩⟩⟩
    · exact Or.inl ⟨(false, [.failIncompleteFrontmatter]),
        by simp [validateBodyExc, hpre, hsplit],
        by simp [validateContent, hpre, hsplit]⟩
    · exact Or.inl ⟨(false, [.failIncompleteFrontmatter]),
        by simp [validateBodyExc, hpre, hsplit],
        by simp [validateContent, hpre, hsplit]⟩
    · exact Or.inl ⟨(false, [.failIncompleteFrontmatter]),
        by simp [validateBodyExc, hpre, hsplit],
        by simp [validateContent, hpre, hsplit]⟩
    · cases hy : y x2 with
      | error e =>
        cases e
        exact Or.inr ⟨by simp [validateBodyExc, hpre, hsplit, hy],
          by simp [validateContent, hpre, hsplit, hy]⟩
      | ok mo =>
        exact Or.inl ⟨checkMeta (mo.getD emptyMeta) x3,
          by simp [validateBodyExc, hpre, hsplit, hy],
          by simp [validateContent, hpre, hsplit, hy]⟩
    · exact Or.inl ⟨(false, [.failIncompleteFrontmatter]),
        by simp [validateBodyExc, hpre, hsplit],
        by simp [validateContent, hpre, hsplit]⟩
  · exact Or.inl ⟨(false, [.failNoFrontmatter]),
      by simp [validateBodyExc, hpre],
      by simp [validateContent, hpre]⟩

/-- An empty model filesystem: the skills directory does not exist. -/
def fsAbsent : FS := ⟨[], []⟩

/-- An oracle that raises on every block (never consulted in the C9
fixtures that matter). -/
def oracleX : YamlOracle := fun _ => .error ()

/-- An arbitrary concrete goal for the C9 fixtures. -/
def goal9 : Str := "anything".toList

/-- A skills directory that exists but whose only `SKILL.md` has no
frontmatter, so it contains zero valid skill documents. -/
def fsBad : FS := ⟨[(["a".toList, skillMdName], "no frontmatter".toList)], []⟩

/-- Counterexample to C9: with the skills directory absent,
`compose_workflow` returns the "Error: Skills directory not found. Run:
skillsmith init" message, which is not the "no skills matched" message the
claim promises (`list_skills` does return `[]` as claimed). -/
theorem claim_C9_counterexample :
    compose_workflow oracleX fsAbsent [] goal9 7 = .dirNotFound ∧
    (∀ g : Str, ComposeResult.dirNotFound ≠ ComposeResult.noMatch g) ∧
    list_skills oracleX fsAbsent [] = [] := by
  refine ⟨rfl, ?_, rfl⟩
  intro g h
  exact ComposeResult.noConfusion h

/-- Claim C9 as amended: with the skills directory absent, `list_skills`
returns `[]` and `compose_workflow` returns the descriptive
directory-not-found error message; with the directory present but holding
zero valid skill documents, `list_skills` returns `[]` and
`compose_workflow` returns the "no skills matched" message.  Neither
operation raises. -/
theorem claim_C9_amended (y : YamlOracle) (fs : FS) (dir : FsPath)
    (goal : Str) (k : Nat) :
    (fs.dirExists dir = false →
      list_skills y fs dir = [] ∧
      compose_workflow y fs dir goal k = .dirNotFound) ∧
    (fs.dirExists dir = true →
      (∀ p ∈ iter_skill_dirs fs dir, load_skill_meta y fs p = none) →
      list_skills y fs dir = [] ∧
      compose_workflow y fs dir goal k = .noMatch goal) := by
  constructor
  · intro hd
    constructor
    · simp [list_skills, hd]
    · simp [compose_workflow, hd]
  · intro hd hall
    have hscored : compose_scored y fs dir goal = [] := by
      unfold compose_scored
      rw [List.filterMap_eq_nil_iff]
      intro p hp
      rw [hall p hp]
    constructor
    · unfold list_skills
      rw [if_pos hd, List.filterMap_eq_nil_iff]
      intro p hp
      rw [hall p hp]
      rfl
    · simp [compose_workflow, hd, hscored]

/-- Witness for the amended C9: the absent-directory case on the empty
filesystem, and the zero-valid-documents case on a directory whose only
document has no frontmatter. -/
theorem claim_C9_amended_witness :
    (list_skills oracleX fsAbsent [] = [] ∧
      compose_workflow oracleX fsAbsent [] goal9 7 = .dirNotFound) ∧
    (list_skills oracleX fsBad [] = [] ∧
      compose_workflow oracleX fsBad [] goal9 7 = .noMatch goal9) :=
  ⟨(claim_C9_amended oracleX fsAbsent [] goal9 7).1 (by decide),
   (claim_C9_amended oracleX fsBad [] goal9 7).2 (by decide) (by decide)⟩

/-- Claim C10: at the query interface, a skill whose frontmatter `tags` is
a single string `s` is reported by `list_skills` and `search_skills` with
`tags = [s]`, and a `tags` sequence is passed through unchanged. -/
theorem claim_C10 (y : YamlOracle) (fs : FS) (dir : FsPath) (q : Str)
    (maxR : Nat) (folder : FsPath) (sk : LoadedSkill)
    (hd : fs.dirExists dir = true)
    (hmem : folder ∈ iter_skill_dirs fs dir)
    (hload : load_skill_meta y fs folder = some sk) :
    mkSkillInfo folder sk ∈ list_skills y fs dir ∧
    (mkSkillInfo folder sk).tags = normTags sk.meta.tags ∧
    (∀ hit ∈ search_skills y fs dir q maxR, hit.srcPath = folder →
      hit.tags = normTags sk.meta.tags) ∧
    (∀ s, normTags (.strTag s) = [s]) ∧
    (∀ l, normTags (.listTag l) = l) := by
  refine ⟨?_, rfl, ?_, fun s => rfl, fun l => rfl⟩
  · unfold list_skills
    rw [if_pos hd]
    exact List.mem_filterMap.mpr ⟨folder, hmem, by rw [hload]; rfl⟩
  · intro hit hm hsp
    unfold search_skills at hm
    rw [if_pos hd] at hm
    by_cases hq : (tokenSet q).isEmpty = true
    · rw [if_pos hq] at hm
      simp at hm
    · rw [if_neg hq] at hm
      have hm2 := List.take_subset _ _ hm
      rw [mem_insSort] at hm2
      rcases List.mem_filterMap.mp hm2 with ⟨p, hp, hfp⟩
      cases hl : load_skill_meta y fs p with
      | none => rw [hl] at hfp; simp at hfp
      | some sk' =>
        rw [hl] at hfp
        simp only at hfp
        by_cases hpos : 0 < relevance q (searchableOf sk')
        · rw [if_pos hpos] at hfp
          have hhit := Option.some.inj hfp
          have hsrc : hit.srcPath = p := by rw [← hhit]
          rw [hsrc] at hsp
          subst hsp
          rw [hload] at hl
          cases Option.some.inj hl
          rw [← hhit]
        · rw [if_neg hpos] at hfp
          simp at hfp

/-- Metadata whose `tags` is the single string `python`. -/
def metaTagStr : Meta :=
  ⟨some ['t'], some ['d'], some "1.0.0".toList, .strTag "python".toList,
    false, none⟩

/-- Oracle for the C10 fixture. -/
def oracleC10 : YamlOracle := fun fm =>
  if fm = ['t'] then .ok (some metaTagStr) else .error ()

/-- One-skill directory for the C10 fixture. -/
def fsC10 : FS := ⟨[(["t".toList, skillMdName], "---t---.".toList)], []⟩

/-- The loaded form of the C10 fixture skill. -/
def skC10 : LoadedSkill := ⟨metaTagStr, ['.'], ['t']⟩

/-- Witness for C10: the string-tagged skill is listed with the
one-element tags list `["python"]`. -/
theorem claim_C10_witness :
    mkSkillInfo [['t']] skC10 ∈ list_skills oracleC10 fsC10 [] ∧
    (mkSkillInfo [['t']] skC10).tags = ["python".toList] := by
  have h := claim_C10 oracleC10 fsC10 [] ['q'] 10 [['t']] skC10
    (by decide) (by decide) (by decide)
  exact ⟨h.1, h.2.1.trans (by decide)⟩
